import Mathlib

/-!
Verification of the indicator-and-scoring pipeline of `posco_dashboard.py`.

The pipeline is embedded shallowly over ℚ.  A pandas column that can hold
NaN is modelled as `List (Option ℚ)` with `none` for NaN; columns that can
never hold NaN (Close, Volume, the MACD family, OBV after `fillna`) are
plain `List ℚ` wrapped in `some` where they sit in the frame.  The special
IEEE-float values arising in the source are modelled at the exact places
they occur and documented there.
-/

/-- One OHLCV bar of the input price series (the `Open`, `High`, `Low`,
`Close`, `Volume` columns of the fetched dataframe).  `Open` is a Lean
keyword, so the field is named `opn`. -/
structure PriceBar where
  opn : ℚ
  high : ℚ
  low : ℚ
  close : ℚ
  volume : ℚ
deriving DecidableEq, Repr, Inhabited

def closesOf (bars : List PriceBar) : List ℚ := bars.map PriceBar.close

def highsOf (bars : List PriceBar) : List ℚ := bars.map PriceBar.high

def lowsOf (bars : List PriceBar) : List ℚ := bars.map PriceBar.low

def volsOf (bars : List PriceBar) : List ℚ := bars.map PriceBar.volume

/-- Sum of the `w` values of `xs` starting at index `s`
(the contents of a full rolling window ending at index `s + w - 1`). -/
def windowSum (xs : List ℚ) (s w : ℕ) : ℚ :=
  ((List.range w).map fun i => xs.getD (s + i) 0).sum

/-- Maximum of the `w` values of `xs` starting at index `s`. -/
def windowMax (xs : List ℚ) (s w : ℕ) : ℚ :=
  ((List.range w).map fun i => xs.getD (s + i) 0).foldl max (xs.getD s 0)

/-- Minimum of the `w` values of `xs` starting at index `s`. -/
def windowMin (xs : List ℚ) (s w : ℕ) : ℚ :=
  ((List.range w).map fun i => xs.getD (s + i) 0).foldl min (xs.getD s 0)

/-- Embedding of `series.rolling(window=w).mean()` on a NaN-free series:
`none` (NaN) while the window is not yet full, otherwise the mean of the
trailing `w` values. -/
def rollingMean (w : ℕ) (xs : List ℚ) : List (Option ℚ) :=
  (List.range xs.length).map fun t =>
    if t + 1 < w then none else some (windowSum xs (t + 1 - w) w / w)

/-- Sample variance (`ddof = 1`, the pandas default for `rolling.std`) of
the window of `w` values of `xs` starting at `s`; the source takes its
square root. -/
def windowVar (xs : List ℚ) (s w : ℕ) : ℚ :=
  (((List.range w).map fun i =>
    (xs.getD (s + i) 0 - windowSum xs s w / w) ^ 2).sum) / (w - 1)

/-- Embedding of `series.rolling(window=w).std()`.  ℚ is not closed under
square roots, so the square-root step is an abstract parameter `sq`; every
theorem below that touches this column holds for an arbitrary `sq`, so
nothing depends on its value. -/
def rollingStd (w : ℕ) (sq : ℚ → ℚ) (xs : List ℚ) : List (Option ℚ) :=
  (List.range xs.length).map fun t =>
    if t + 1 < w then none else some (sq (windowVar xs (t + 1 - w) w))

/-- Window of `w` entries of an Option-valued (possibly-NaN) column
starting at index `s`. -/
def optWindow (xs : List (Option ℚ)) (s w : ℕ) : List (Option ℚ) :=
  (List.range w).map fun i => xs.getD (s + i) none

/-- NaN-propagating sum: `none` as soon as one entry is `none`, mirroring
arithmetic on pandas columns that contain NaN. -/
def osum (l : List (Option ℚ)) : Option ℚ :=
  l.foldr (fun a b => Option.map₂ (· + ·) a b) (some 0)

/-- Embedding of `series.rolling(window=w).mean()` on a column that may
contain NaN: the result is NaN while the window is not full or whenever
the window contains a NaN (pandas keeps `min_periods = window` here). -/
def rollingMeanO (w : ℕ) (xs : List (Option ℚ)) : List (Option ℚ) :=
  (List.range xs.length).map fun t =>
    if t + 1 < w then none
    else (osum (optWindow xs (t + 1 - w) w)).map fun x => x / w

/-- Per-bar positive deltas fed to the RSI gain average: the source runs
`delta.where(delta > 0, 0)` on `delta = prices.diff()`.  At index 0 the
delta is NaN; `NaN > 0` is false, so `where` replaces it by 0 (the gain
column therefore holds no NaN at all). -/
def gainsOf (closes : List ℚ) : List ℚ :=
  (List.range closes.length).map fun t =>
    if t = 0 then 0 else max (closes.getD t 0 - closes.getD (t - 1) 0) 0

/-- Per-bar negated negative deltas fed to the RSI loss average, from
`(-delta.where(delta < 0, 0))`; index 0 becomes 0 exactly as for gains. -/
def lossesOf (closes : List ℚ) : List ℚ :=
  (List.range closes.length).map fun t =>
    if t = 0 then 0 else max (closes.getD (t - 1) 0 - closes.getD t 0) 0

/-- Pointwise RSI value from a defined gain average `g` and loss average
`l`, embedding `100 - 100 / (1 + g / l)` under IEEE-754 semantics: with
`l = 0` and `g ≠ 0` the source computes `g / 0 = ±inf`, and
`100 - 100 / (1 ± inf) = 100`; with `l = 0 = g` it computes `0 / 0 = NaN`
which propagates (`none`).  With `l ≠ 0` the expression is exact rational
arithmetic (here always `l > 0`, so `1 + g / l > 0` and no further zero
division can occur because `g ≥ 0`). -/
def rsiVal (g l : ℚ) : Option ℚ :=
  if l = 0 then (if g = 0 then none else some 100)
  else some (100 - 100 / (1 + g / l))

/-- The `RSI` column of `calculate_rsi(prices, period=14)`: 14-bar rolling
means of gains and losses, then the pointwise `100 - 100/(1 + rs)`. -/
def rsiCol (closes : List ℚ) : List (Option ℚ) :=
  (List.range closes.length).map fun t =>
    match (rollingMean 14 (gainsOf closes)).getD t none,
          (rollingMean 14 (lossesOf closes)).getD t none with
    | some g, some l => rsiVal g l
    | _, _ => none

/-- Recursive worker for `ewm(span, adjust=False).mean()`: each output is
`α·x + (1 − α)·previous`. -/
def emaGo (a : ℚ) : ℚ → List ℚ → List ℚ
  | _, [] => []
  | prev, x :: xs => (a * x + (1 - a) * prev) :: emaGo a (a * x + (1 - a) * prev) xs

/-- Embedding of `prices.ewm(span=span, adjust=False).mean()`:
`EMA[0] = price[0]` and `EMA[t] = α·price[t] + (1 − α)·EMA[t−1]` with
`α = 2 / (span + 1)`. -/
def ewmMean (span : ℕ) (xs : List ℚ) : List ℚ :=
  match xs with
  | [] => []
  | x :: rest => x :: emaGo (2 / ((span : ℚ) + 1)) x rest

/-- The MACD line of `calculate_macd`: EMA(12) − EMA(26) of close. -/
def macdLine (closes : List ℚ) : List ℚ :=
  List.zipWith (· - ·) (ewmMean 12 closes) (ewmMean 26 closes)

/-- The MACD signal line: EMA(9) of the MACD line. -/
def macdSignalLine (closes : List ℚ) : List ℚ :=
  ewmMean 9 (macdLine closes)

/-- The MACD histogram: line minus signal. -/
def macdHistLine (closes : List ℚ) : List ℚ :=
  List.zipWith (· - ·) (macdLine closes) (macdSignalLine closes)

/-- The stochastic `%K` column of `calculate_stochastic` (k_period 14):
`100·(close − lowest_low)/(highest_high − lowest_low)` over the trailing
14-bar window, NaN while the window is not full.  When the rolling range
is zero every bar in the window has `high = low`, hence (for OHLC bars,
where `low ≤ close ≤ high`) `close = lowest_low`, and the source computes
`0 / 0 = NaN`; the zero-range case is therefore embedded as `none`. -/
def kCol (bars : List PriceBar) : List (Option ℚ) :=
  (List.range bars.length).map fun t =>
    if t + 1 < 14 then none
    else
      let ll := windowMin (lowsOf bars) (t + 1 - 14) 14
      let hh := windowMax (highsOf bars) (t + 1 - 14) 14
      if hh = ll then none
      else some (100 * (((closesOf bars).getD t 0 - ll) / (hh - ll)))

/-- The stochastic `%D` column: 3-bar rolling mean of `%K` (NaN wherever
the `%K` window contains a NaN). -/
def dCol (bars : List PriceBar) : List (Option ℚ) :=
  rollingMeanO 3 (kCol bars)

/-- Embedding of `np.sign` on a (non-NaN) float. -/
def sign (x : ℚ) : ℚ := if 0 < x then 1 else if x < 0 then -1 else 0

/-- Per-bar OBV contributions `np.sign(close.diff()) * volume` after
`.fillna(0)`: at index 0 the diff is NaN, `sign(NaN)·v = NaN`, and
`fillna` turns it into 0. -/
def obvTerms (bars : List PriceBar) : List ℚ :=
  (List.range bars.length).map fun t =>
    if t = 0 then 0
    else sign ((closesOf bars).getD t 0 - (closesOf bars).getD (t - 1) 0) *
      (volsOf bars).getD t 0

/-- Cumulative sums of a list (`series.cumsum()`): entry `t` is the sum of
the first `t + 1` entries. -/
def cumsum (l : List ℚ) : List ℚ :=
  (List.range l.length).map fun t => (l.take (t + 1)).sum

/-- The `OBV` column: cumulative sum of the signed-volume terms. -/
def obvCol (bars : List PriceBar) : List ℚ :=
  cumsum (obvTerms bars)

/-- The derived columns the dashboard adds to the price dataframe.  Every
column is Option-valued as in the spec data model; columns the source
computes without NaN (the MACD family and OBV) are filled with `some`. -/
structure IndicatorFrame where
  ma5 : List (Option ℚ)
  ma20 : List (Option ℚ)
  ma60 : List (Option ℚ)
  ma120 : List (Option ℚ)
  rsi : List (Option ℚ)
  macd : List (Option ℚ)
  macdSig : List (Option ℚ)
  macdHist : List (Option ℚ)
  stochK : List (Option ℚ)
  stochD : List (Option ℚ)
  obv : List (Option ℚ)
  bbMiddle : List (Option ℚ)
  bbStd : List (Option ℚ)
  bbUpper : List (Option ℚ)
  bbLower : List (Option ℚ)
deriving DecidableEq, Repr

/-- The full Indicator Engine: all derived columns of the dashboard, as
added to `df` at lines 230-233, 255-256, 267, 270 and 649-652 of the
source.  `sq` is the abstract square root used by the Bollinger std. -/
def mkFrame (bars : List PriceBar) (sq : ℚ → ℚ) : IndicatorFrame where
  ma5 := rollingMean 5 (closesOf bars)
  ma20 := rollingMean 20 (closesOf bars)
  ma60 := rollingMean 60 (closesOf bars)
  ma120 := rollingMean 120 (closesOf bars)
  rsi := rsiCol (closesOf bars)
  macd := (macdLine (closesOf bars)).map some
  macdSig := (macdSignalLine (closesOf bars)).map some
  macdHist := (macdHistLine (closesOf bars)).map some
  stochK := kCol bars
  stochD := dCol bars
  obv := (obvCol bars).map some
  bbMiddle := rollingMean 20 (closesOf bars)
  bbStd := rollingStd 20 sq (closesOf bars)
  bbUpper := List.zipWith (fun m s => Option.map₂ (fun a b => a + b * 2) m s)
    (rollingMean 20 (closesOf bars)) (rollingStd 20 sq (closesOf bars))
  bbLower := List.zipWith (fun m s => Option.map₂ (fun a b => a - b * 2) m s)
    (rollingMean 20 (closesOf bars)) (rollingStd 20 sq (closesOf bars))

/-- One row of the tabular frame as consumed by `calculate_probability`:
the columns the scorer reads (`Close`, `Volume`, `MA_5`, `MA_20`, `RSI`,
`MACD`, `MACD_Signal`, `MACD_Hist`, `Stoch_K`, `Stoch_D`, `OBV`).
Indicator columns are Option-valued (NaN as `none`). -/
structure IndRow where
  close : ℚ
  volume : ℚ
  ma5 : Option ℚ
  ma20 : Option ℚ
  rsi : Option ℚ
  macd : Option ℚ
  macdSig : Option ℚ
  macdHist : Option ℚ
  stochK : Option ℚ
  stochD : Option ℚ
  obv : Option ℚ
deriving DecidableEq, Repr, Inhabited

/-- The five per-indicator sub-scores, the `signals` dict of the source. -/
structure Signals where
  rsi : ℚ
  macd : ℚ
  stochastic : ℚ
  ma : ℚ
  obv : ℚ
deriving DecidableEq, Repr

/-- Python comparison `a > b` on possibly-NaN floats: false when either
side is NaN. -/
def ogt (a b : Option ℚ) : Bool :=
  match a, b with
  | some x, some y => decide (y < x)
  | _, _ => false

/-- Python comparison `a < b` on possibly-NaN floats: false when either
side is NaN. -/
def olt (a b : Option ℚ) : Bool :=
  match a, b with
  | some x, some y => decide (x < y)
  | _, _ => false

/-- The RSI sub-score branch of `calculate_probability` (lines 285-300). -/
def rsiScore (r : Option ℚ) : ℚ :=
  match r with
  | some v =>
    if v < 30 then 80
    else if v < 40 then 65
    else if v < 50 then 55
    else if v < 60 then 45
    else if v < 70 then 35
    else 20
  | none => 50

/-- The MACD sub-score branch (lines 303-320): `m` the latest MACD value,
`s` the latest signal value, `h` the latest histogram value, `hp` the
previous histogram value.  The histogram comparisons are NaN-aware (false
on NaN), exactly as Python float comparison. -/
def macdScore (m s h hp : Option ℚ) : ℚ :=
  match m, s with
  | some mv, some sv =>
    if mv > sv ∧ ogt h hp then 75
    else if mv > sv then 60
    else if mv < sv ∧ olt h hp then 25
    else if mv < sv then 40
    else 50
  | _, _ => 50

/-- The stochastic sub-score branch (lines 323-337). -/
def stochScore (k d : Option ℚ) : ℚ :=
  match k, d with
  | some kv, some dv =>
    if kv < 20 ∧ dv < kv then 75
    else if kv < 30 then 60
    else if kv > 80 ∧ kv < dv then 25
    else if kv > 70 then 40
    else 50
  | _, _ => 50

/-- The moving-average sub-score branch (lines 340-355). -/
def maScore (price : ℚ) (m5 m20 : Option ℚ) : ℚ :=
  match m5, m20 with
  | some a, some b =>
    if price > a ∧ a > b then 70
    else if price > a then 60
    else if price < a ∧ a < b then 30
    else if price < a then 40
    else 50
  | _, _ => 50

/-- The OBV sub-score branch (lines 358-371): compares the OBV delta and
the close delta over the trailing `min(5, len−1)` rows of the window.
The OBV delta is Option-valued (NaN-propagating subtraction) and its
comparisons against 0 are NaN-aware. -/
def obvScore (recent : List IndRow) (last : IndRow) : ℚ :=
  if 1 < recent.length then
    let k := min 5 (recent.length - 1)
    let base := recent.getD (recent.length - k) default
    let obvTrend : Option ℚ := Option.map₂ (· - ·) last.obv base.obv
    let priceTrend : ℚ := last.close - base.close
    if ogt obvTrend (some 0) ∧ 0 < priceTrend then 70
    else if olt obvTrend (some 0) ∧ priceTrend < 0 then 30
    else if ogt obvTrend (some 0) ∧ priceTrend < 0 then 45
    else 55
  else 50

/-- The five sub-scores computed from the trailing window `recent` whose
last row is `last`.  `prevHist` is `MACD_Hist.iloc[-2]` when the window
has more than one row, else the latest histogram value. -/
def mkSignals (recent : List IndRow) (last : IndRow) : Signals :=
  let prevHist : Option ℚ :=
    if 1 < recent.length then (recent.getD (recent.length - 2) default).macdHist
    else last.macdHist
  { rsi := rsiScore last.rsi
  , macd := macdScore last.macd last.macdSig last.macdHist prevHist
  , stochastic := stochScore last.stochK last.stochD
  , ma := maScore last.close last.ma5 last.ma20
  , obv := obvScore recent last }

/-- One clipped volume ratio, `(v / avg).fillna(1.0).clip(0.5, 2.0)` under
IEEE-754 semantics: `0 / 0 = NaN`, which `fillna` turns into 1; `v / 0`
with `v ≠ 0` is `±inf`, which `fillna` keeps and `clip` turns into 2
(or 0.5); otherwise the exact ratio clipped to `[0.5, 2.0]`. -/
def volClipped (v avg : ℚ) : ℚ :=
  if avg = 0 then (if v = 0 then 1 else if 0 < v then 2 else 1 / 2)
  else min 2 (max (1 / 2) (v / avg))

/-- The `volume_weight` scalar (lines 374-376 and 394): mean of the
clipped ratios of the trailing five volumes to the window-mean volume,
defaulting to 1 on an empty ratio list. -/
def volumeWeight (recent : List IndRow) : ℚ :=
  let vols := recent.map IndRow.volume
  let recentVols := vols.drop (vols.length - 5)
  let avg := vols.sum / (vols.length : ℚ)
  let ws := recentVols.map fun v => volClipped v avg
  if 0 < ws.length then ws.sum / (ws.length : ℚ) else 1

/-- The final blended score (lines 388-402): each base weight is scaled by
the shared `volume_weight`, the weighted sub-scores are summed and divided
by the total weight, with fallback 50 on non-positive total weight. -/
def finalScore (recent : List IndRow) (last : IndRow) : ℚ :=
  let s := mkSignals recent last
  let vw := volumeWeight recent
  let weighted := s.rsi * (0.25 * vw) + s.macd * (0.25 * vw) +
    s.stochastic * (0.15 * vw) + s.ma * (0.20 * vw) + s.obv * (0.15 * vw)
  let total := 0.25 * vw + 0.25 * vw + 0.15 * vw + 0.20 * vw + 0.15 * vw
  if 0 < total then weighted / total else 50

/-- The effective lookback after the clamp
`if len(df) < lookback_period: lookback_period = len(df)`. -/
def lookbackOf (df : List IndRow) (lookback : ℕ) : ℕ :=
  if df.length < lookback then df.length else lookback

/-- The trailing window `df.tail(lookback)` used by the scorer. -/
def recentOf (df : List IndRow) (lookback : ℕ) : List IndRow :=
  df.drop (df.length - lookbackOf df lookback)

/-- Embedding of `calculate_probability(df, lookback_period)`: returns
`(up_probability, down_probability, signals)`.  On an empty trailing
window the source raises (`iloc[-1]` on an empty frame), modelled as
`none`. -/
def calculate_probability (df : List IndRow) (lookback : ℕ) :
    Option (ℚ × ℚ × Signals) :=
  let recent := recentOf df lookback
  recent.getLast?.map fun last =>
    let f := finalScore recent last
    let up := max 0 (min 100 f)
    (up, 100 - up, mkSignals recent last)

/-- Modelled from the claim C9's words (refinement target, not source
code): the simplified scorer that drops the volume weighting and blends
the sub-scores with the fixed base weights alone. -/
def simpleFinalScore (recent : List IndRow) (last : IndRow) : ℚ :=
  let s := mkSignals recent last
  s.rsi * 0.25 + s.macd * 0.25 + s.stochastic * 0.15 + s.ma * 0.20 +
    s.obv * 0.15

/-- Modelled from the claim C9's words: `calculate_probability` with the
simplified final score. -/
def calculate_probability_simple (df : List IndRow) (lookback : ℕ) :
    Option (ℚ × ℚ × Signals) :=
  let recent := recentOf df lookback
  recent.getLast?.map fun last =>
    let f := simpleFinalScore recent last
    let up := max 0 (min 100 f)
    (up, 100 - up, mkSignals recent last)

/-- The set of constants a sub-score branch can return. -/
def ScoreOK (x : ℚ) : Prop :=
  x = 20 ∨ x = 25 ∨ x = 30 ∨ x = 35 ∨ x = 40 ∨ x = 45 ∨ x = 50 ∨
  x = 55 ∨ x = 60 ∨ x = 65 ∨ x = 70 ∨ x = 75 ∨ x = 80

theorem mapRange_getElem? {β : Type} (f : ℕ → β) (n t : ℕ) (ht : t < n) :
    ((List.range n).map f)[t]? = some (f t) := by
  rw [List.getElem?_map, List.getElem?_range ht, Option.map_some']

theorem mapRange_getD {β : Type} (f : ℕ → β) (n t : ℕ) (d : β) (ht : t < n) :
    ((List.range n).map f).getD t d = f t := by
  rw [List.getD_eq_getElem?_getD, mapRange_getElem? f n t ht, Option.getD_some]

theorem getD_take {β : Type} (l : List β) (n m : ℕ) (d : β) (h : m < n) :
    (l.take n).getD m d = l.getD m d := by
  rw [List.getD_eq_getElem?_getD, List.getD_eq_getElem?_getD,
    List.getElem?_take_of_lt h]

theorem mapRange_take_comm {α β : Type} (g : List α → ℕ → β) (xs : List α) (n : ℕ)
    (hg : ∀ t, t < n → t < xs.length → g (xs.take n) t = g xs t) :
    (List.range (xs.take n).length).map (g (xs.take n)) =
      ((List.range xs.length).map (g xs)).take n := by
  rw [← List.map_take, List.take_range, List.length_take]
  apply List.map_congr_left
  intro t ht
  rw [List.mem_range] at ht
  exact hg t (lt_of_lt_of_le ht (min_le_left _ _)) (lt_of_lt_of_le ht (min_le_right _ _))

theorem windowSum_take (xs : List ℚ) (s w n : ℕ) (h : s + w ≤ n) :
    windowSum (xs.take n) s w = windowSum xs s w := by
  unfold windowSum
  congr 1
  apply List.map_congr_left
  intro i hi
  rw [List.mem_range] at hi
  exact getD_take _ _ _ _ (by omega)

theorem windowMax_take (xs : List ℚ) (s w n : ℕ) (hw : 0 < w) (h : s + w ≤ n) :
    windowMax (xs.take n) s w = windowMax xs s w := by
  unfold windowMax
  rw [getD_take _ _ _ _ (by omega)]
  congr 1
  apply List.map_congr_left
  intro i hi
  rw [List.mem_range] at hi
  exact getD_take _ _ _ _ (by omega)

theorem windowMin_take (xs : List ℚ) (s w n : ℕ) (hw : 0 < w) (h : s + w ≤ n) :
    windowMin (xs.take n) s w = windowMin xs s w := by
  unfold windowMin
  rw [getD_take _ _ _ _ (by omega)]
  congr 1
  apply List.map_congr_left
  intro i hi
  rw [List.mem_range] at hi
  exact getD_take _ _ _ _ (by omega)

theorem windowVar_take (xs : List ℚ) (s w n : ℕ) (h : s + w ≤ n) :
    windowVar (xs.take n) s w = windowVar xs s w := by
  unfold windowVar
  rw [windowSum_take _ _ _ _ h]
  congr 2
  apply List.map_congr_left
  intro i hi
  rw [List.mem_range] at hi
  rw [getD_take _ _ _ _ (by omega)]

theorem optWindow_take (xs : List (Option ℚ)) (s w n : ℕ) (h : s + w ≤ n) :
    optWindow (xs.take n) s w = optWindow xs s w := by
  unfold optWindow
  apply List.map_congr_left
  intro i hi
  rw [List.mem_range] at hi
  exact getD_take _ _ _ _ (by omega)

theorem closesOf_take (bars : List PriceBar) (n : ℕ) :
    closesOf (bars.take n) = (closesOf bars).take n := List.map_take _ _ _

theorem highsOf_take (bars : List PriceBar) (n : ℕ) :
    highsOf (bars.take n) = (highsOf bars).take n := List.map_take _ _ _

theorem lowsOf_take (bars : List PriceBar) (n : ℕ) :
    lowsOf (bars.take n) = (lowsOf bars).take n := List.map_take _ _ _

theorem volsOf_take (bars : List PriceBar) (n : ℕ) :
    volsOf (bars.take n) = (volsOf bars).take n := List.map_take _ _ _

theorem rollingMean_take (w : ℕ) (xs : List ℚ) (n : ℕ) :
    rollingMean w (xs.take n) = (rollingMean w xs).take n := by
  unfold rollingMean
  refine mapRange_take_comm
    (fun ys t => if t + 1 < w then none else some (windowSum ys (t + 1 - w) w / (w : ℚ)))
    xs n ?_
  intro t htn htl
  by_cases hc : t + 1 < w
  · simp only [hc, if_true]
  · simp only [hc, if_false]
    rw [windowSum_take _ _ _ _ (by omega)]

theorem rollingStd_take (w : ℕ) (sq : ℚ → ℚ) (xs : List ℚ) (n : ℕ) :
    rollingStd w sq (xs.take n) = (rollingStd w sq xs).take n := by
  unfold rollingStd
  refine mapRange_take_comm
    (fun ys t => if t + 1 < w then none else some (sq (windowVar ys (t + 1 - w) w)))
    xs n ?_
  intro t htn htl
  by_cases hc : t + 1 < w
  · simp only [hc, if_true]
  · simp only [hc, if_false]
    rw [windowVar_take _ _ _ _ (by omega)]

theorem rollingMeanO_take (w : ℕ) (xs : List (Option ℚ)) (n : ℕ) :
    rollingMeanO w (xs.take n) = (rollingMeanO w xs).take n := by
  unfold rollingMeanO
  refine mapRange_take_comm
    (fun ys t => if t + 1 < w then none
      else (osum (optWindow ys (t + 1 - w) w)).map fun x => x / (w : ℚ))
    xs n ?_
  intro t htn htl
  by_cases hc : t + 1 < w
  · simp only [hc, if_true]
  · simp only [hc, if_false]
    rw [optWindow_take _ _ _ _ (by omega)]

theorem gainsOf_take (closes : List ℚ) (n : ℕ) :
    gainsOf (closes.take n) = (gainsOf closes).take n := by
  unfold gainsOf
  refine mapRange_take_comm
    (fun ys t => if t = 0 then 0 else max (ys.getD t 0 - ys.getD (t - 1) 0) 0)
    closes n ?_
  intro t htn htl
  by_cases h0 : t = 0
  · simp only [h0, if_true]
  · simp only [h0, if_false]
    rw [getD_take _ _ _ _ htn, getD_take _ _ _ _ (by omega)]

theorem lossesOf_take (closes : List ℚ) (n : ℕ) :
    lossesOf (closes.take n) = (lossesOf closes).take n := by
  unfold lossesOf
  refine mapRange_take_comm
    (fun ys t => if t = 0 then 0 else max (ys.getD (t - 1) 0 - ys.getD t 0) 0)
    closes n ?_
  intro t htn htl
  by_cases h0 : t = 0
  · simp only [h0, if_true]
  · simp only [h0, if_false]
    rw [getD_take _ _ _ _ htn, getD_take _ _ _ _ (by omega)]

theorem rsiCol_take (closes : List ℚ) (n : ℕ) :
    rsiCol (closes.take n) = (rsiCol closes).take n := by
  unfold rsiCol
  refine mapRange_take_comm
    (fun ys t =>
      match (rollingMean 14 (gainsOf ys)).getD t none,
            (rollingMean 14 (lossesOf ys)).getD t none with
      | some g, some l => rsiVal g l
      | _, _ => none)
    closes n ?_
  intro t htn htl
  dsimp only
  rw [gainsOf_take, lossesOf_take, rollingMean_take, rollingMean_take,
    getD_take _ _ _ _ htn, getD_take _ _ _ _ htn]

theorem emaGo_take (a p : ℚ) (l : List ℚ) (n : ℕ) :
    emaGo a p (l.take n) = (emaGo a p l).take n := by
  induction l generalizing p n with
  | nil => simp [emaGo]
  | cons x xs ih =>
    cases n with
    | zero => simp [emaGo]
    | succ m => simp [emaGo, List.take_succ_cons, ih]

theorem ewmMean_take (span : ℕ) (xs : List ℚ) (n : ℕ) :
    ewmMean span (xs.take n) = (ewmMean span xs).take n := by
  cases xs with
  | nil => simp [ewmMean]
  | cons x rest =>
    cases n with
    | zero => simp [ewmMean]
    | succ m => simp [ewmMean, List.take_succ_cons, emaGo_take]

theorem macdLine_take (closes : List ℚ) (n : ℕ) :
    macdLine (closes.take n) = (macdLine closes).take n := by
  unfold macdLine
  rw [ewmMean_take, ewmMean_take, ← List.take_zipWith]

theorem macdSignalLine_take (closes : List ℚ) (n : ℕ) :
    macdSignalLine (closes.take n) = (macdSignalLine closes).take n := by
  unfold macdSignalLine
  rw [macdLine_take, ewmMean_take]

theorem macdHistLine_take (closes : List ℚ) (n : ℕ) :
    macdHistLine (closes.take n) = (macdHistLine closes).take n := by
  unfold macdHistLine
  rw [macdLine_take, macdSignalLine_take, ← List.take_zipWith]

theorem kCol_take (bars : List PriceBar) (n : ℕ) :
    kCol (bars.take n) = (kCol bars).take n := by
  unfold kCol
  refine mapRange_take_comm
    (fun bs t =>
      if t + 1 < 14 then none
      else
        let ll := windowMin (lowsOf bs) (t + 1 - 14) 14
        let hh := windowMax (highsOf bs) (t + 1 - 14) 14
        if hh = ll then none
        else some (100 * (((closesOf bs).getD t 0 - ll) / (hh - ll))))
    bars n ?_
  intro t htn htl
  by_cases hc : t + 1 < 14
  · simp only [hc, if_true]
  · simp only [hc, if_false]
    rw [highsOf_take, lowsOf_take, closesOf_take,
      windowMax_take _ _ _ _ (by norm_num) (by omega),
      windowMin_take _ _ _ _ (by norm_num) (by omega),
      getD_take _ _ _ _ htn]

theorem dCol_take (bars : List PriceBar) (n : ℕ) :
    dCol (bars.take n) = (dCol bars).take n := by
  unfold dCol
  rw [kCol_take, rollingMeanO_take]

theorem obvTerms_take (bars : List PriceBar) (n : ℕ) :
    obvTerms (bars.take n) = (obvTerms bars).take n := by
  unfold obvTerms
  refine mapRange_take_comm
    (fun bs t =>
      if t = 0 then 0
      else sign ((closesOf bs).getD t 0 - (closesOf bs).getD (t - 1) 0) *
        (volsOf bs).getD t 0)
    bars n ?_
  intro t htn htl
  by_cases h0 : t = 0
  · simp only [h0, if_true]
  · simp only [h0, if_false]
    rw [closesOf_take, volsOf_take, getD_take _ _ _ _ htn,
      getD_take _ _ _ _ (by omega), getD_take _ _ _ _ htn]

theorem cumsum_take (l : List ℚ) (n : ℕ) :
    cumsum (l.take n) = (cumsum l).take n := by
  unfold cumsum
  refine mapRange_take_comm (fun ys t => (ys.take (t + 1)).sum) l n ?_
  intro t htn htl
  dsimp only
  rw [List.take_take, min_eq_left (by omega)]

theorem obvCol_take (bars : List PriceBar) (n : ℕ) :
    obvCol (bars.take n) = (obvCol bars).take n := by
  unfold obvCol
  rw [obvTerms_take, cumsum_take]

theorem exists_getLast {β : Type} (l : List β) (h : l ≠ []) : ∃ a, l.getLast? = some a :=
  ⟨l.getLast h, List.getLast?_eq_getLast_of_ne_nil h⟩

theorem getLast?_mem_of_eq_some {β : Type} (l : List β) (a : β) (h : l.getLast? = some a) :
    a ∈ l := by
  have hmem : a ∈ l.getLast? := by rw [h]; rfl
  obtain ⟨hne, heq⟩ := List.mem_getLast?_eq_getLast hmem
  rw [heq]
  exact List.getLast_mem hne

theorem emaGo_length (a p : ℚ) (l : List ℚ) : (emaGo a p l).length = l.length := by
  induction l generalizing p with
  | nil => rfl
  | cons x xs ih => simp [emaGo, ih]

theorem emaGo_getD (a p : ℚ) (l : List ℚ) (t : ℕ) (ht : t < l.length) :
    (emaGo a p l).getD t 0 =
      a * l.getD t 0 +
        (1 - a) * (if t = 0 then p else (emaGo a p l).getD (t - 1) 0) := by
  induction l generalizing p t with
  | nil => simp at ht
  | cons x xs ih =>
    cases t with
    | zero => simp [emaGo]
    | succ s =>
      cases s with
      | zero =>
        have hx : 0 < xs.length := by simpa using ht
        simp only [emaGo, List.getD_cons_succ, List.getD_cons_zero]
        rw [ih _ 0 hx]
        simp
      | succ r =>
        have hx : r + 1 < xs.length := by simpa using ht
        simp only [emaGo, List.getD_cons_succ]
        rw [ih _ (r + 1) hx]
        simp [List.getD_cons_succ]

theorem ewmMean_length (span : ℕ) (xs : List ℚ) : (ewmMean span xs).length = xs.length := by
  cases xs with
  | nil => rfl
  | cons x rest => simp [ewmMean, emaGo_length]

theorem cumsum_getD (l : List ℚ) (t : ℕ) (ht : t < l.length) :
    (cumsum l).getD t 0 = (l.take (t + 1)).sum := by
  unfold cumsum
  exact mapRange_getD _ _ _ _ ht

theorem half_length_le_sum (l : List ℚ) (h : ∀ x ∈ l, 1 / 2 ≤ x) :
    (l.length : ℚ) / 2 ≤ l.sum := by
  induction l with
  | nil => simp
  | cons a tl ih =>
    have ha := h a (by simp)
    have htl := ih fun x hx => h x (by simp [hx])
    simp only [List.length_cons, List.sum_cons]
    push_cast
    linarith

theorem volClipped_ge (v avg : ℚ) : 1 / 2 ≤ volClipped v avg := by
  unfold volClipped
  split_ifs <;> norm_num

theorem volumeWeight_pos (recent : List IndRow) (h : recent ≠ []) :
    0 < volumeWeight recent := by
  have hlen : 0 < recent.length := List.length_pos.mpr h
  unfold volumeWeight
  dsimp only
  set ws := ((recent.map IndRow.volume).drop ((recent.map IndRow.volume).length - 5)).map
    (fun v => volClipped v ((recent.map IndRow.volume).sum /
      ((recent.map IndRow.volume).length : ℚ))) with hws
  have hlws : 0 < ws.length := by
    rw [hws]
    simp only [List.length_map, List.length_drop]
    omega
  rw [if_pos hlws]
  have hhalf : ∀ x ∈ ws, 1 / 2 ≤ x := by
    intro x hx
    rw [hws] at hx
    obtain ⟨v, hv, rfl⟩ := List.mem_map.mp hx
    exact volClipped_ge _ _
  have hbound := half_length_le_sum ws hhalf
  have hq : (0 : ℚ) < (ws.length : ℚ) := by exact_mod_cast hlws
  exact div_pos (lt_of_lt_of_le (by positivity) hbound) hq

theorem finalScore_eq_simple (recent : List IndRow) (last : IndRow)
    (h : 0 < volumeWeight recent) :
    finalScore recent last = simpleFinalScore recent last := by
  unfold finalScore simpleFinalScore
  dsimp only
  have hv : (0 : ℚ) < 0.25 * volumeWeight recent + 0.25 * volumeWeight recent +
      0.15 * volumeWeight recent + 0.20 * volumeWeight recent +
      0.15 * volumeWeight recent := by linarith
  rw [if_pos hv, div_eq_iff (ne_of_gt hv)]
  ring

theorem recentOf_ne_nil (df : List IndRow) (lookback : ℕ)
    (hdf : df ≠ []) (hlb : 1 ≤ lookback) : recentOf df lookback ≠ [] := by
  have hlen : 0 < df.length := List.length_pos.mpr hdf
  have hk : 1 ≤ lookbackOf df lookback := by
    unfold lookbackOf
    split <;> omega
  unfold recentOf
  rw [Ne, List.drop_eq_nil_iff]
  omega

theorem scoreOK_bounds (x : ℚ) (h : ScoreOK x) : 20 ≤ x ∧ x ≤ 80 := by
  unfold ScoreOK at h
  rcases h with h | h | h | h | h | h | h | h | h | h | h | h | h <;> subst h <;> norm_num

theorem rsiScore_mem (r : Option ℚ) : ScoreOK (rsiScore r) := by
  unfold ScoreOK
  rcases r with _ | v
  · norm_num [rsiScore]
  · simp only [rsiScore]
    split_ifs <;> norm_num

theorem macdScore_mem (m s h hp : Option ℚ) : ScoreOK (macdScore m s h hp) := by
  unfold ScoreOK
  rcases m with _ | mv <;> rcases s with _ | sv
  · norm_num [macdScore]
  · norm_num [macdScore]
  · norm_num [macdScore]
  · simp only [macdScore]
    split_ifs <;> norm_num

theorem stochScore_mem (k d : Option ℚ) : ScoreOK (stochScore k d) := by
  unfold ScoreOK
  rcases k with _ | kv <;> rcases d with _ | dv
  · norm_num [stochScore]
  · norm_num [stochScore]
  · norm_num [stochScore]
  · simp only [stochScore]
    split_ifs <;> norm_num

theorem maScore_mem (price : ℚ) (m5 m20 : Option ℚ) : ScoreOK (maScore price m5 m20) := by
  unfold ScoreOK
  rcases m5 with _ | a <;> rcases m20 with _ | b
  · norm_num [maScore]
  · norm_num [maScore]
  · norm_num [maScore]
  · simp only [maScore]
    split_ifs <;> norm_num

theorem obvScore_mem (recent : List IndRow) (last : IndRow) :
    ScoreOK (obvScore recent last) := by
  unfold obvScore ScoreOK
  dsimp only
  split_ifs <;> norm_num

theorem simpleFinalScore_bounds (recent : List IndRow) (last : IndRow) :
    20 ≤ simpleFinalScore recent last ∧ simpleFinalScore recent last ≤ 80 := by
  obtain ⟨a1, a2⟩ := scoreOK_bounds _ (rsiScore_mem last.rsi)
  obtain ⟨b1, b2⟩ := scoreOK_bounds _ (macdScore_mem last.macd last.macdSig last.macdHist
    (if 1 < recent.length then (recent.getD (recent.length - 2) default).macdHist
     else last.macdHist))
  obtain ⟨c1, c2⟩ := scoreOK_bounds _ (stochScore_mem last.stochK last.stochD)
  obtain ⟨d1, d2⟩ := scoreOK_bounds _ (maScore_mem last.close last.ma5 last.ma20)
  obtain ⟨e1, e2⟩ := scoreOK_bounds _ (obvScore_mem recent last)
  unfold simpleFinalScore mkSignals
  dsimp only
  constructor <;> linarith

/-- C1: for every IndicatorFrame (non-empty, per the data-model invariant)
and every lookback_period ≥ 1, `calculate_probability` returns a pair with
`up_probability + down_probability = 100` exactly and both probabilities
in `[0, 100]`. -/
theorem c1_up_down_sum_and_bounds (df : List IndRow) (lookback : ℕ)
    (hdf : df ≠ []) (hlb : 1 ≤ lookback) :
    ∃ u d s, calculate_probability df lookback = some (u, d, s) ∧
      u + d = 100 ∧ 0 ≤ u ∧ u ≤ 100 ∧ 0 ≤ d ∧ d ≤ 100 := by
  obtain ⟨last, hlast⟩ := exists_getLast _ (recentOf_ne_nil df lookback hdf hlb)
  have hub : max 0 (min 100 (finalScore (recentOf df lookback) last)) ≤ 100 :=
    max_le (by norm_num) (min_le_left _ _)
  have hlbd : (0 : ℚ) ≤ max 0 (min 100 (finalScore (recentOf df lookback) last)) :=
    le_max_left _ _
  refine ⟨max 0 (min 100 (finalScore (recentOf df lookback) last)),
    100 - max 0 (min 100 (finalScore (recentOf df lookback) last)),
    mkSignals (recentOf df lookback) last, ?_, by ring, hlbd, hub,
    by linarith, by linarith⟩
  simp only [calculate_probability]
  rw [hlast, Option.map_some']

/-- Witness for C1 at a concrete one-row frame with lookback 1. -/
theorem c1_witness :
    ([⟨100, 1000, none, none, none, none, none, none, none, none, none⟩] : List IndRow) ≠ [] ∧
    1 ≤ 1 ∧
    ∃ u d s, calculate_probability
        [⟨100, 1000, none, none, none, none, none, none, none, none, none⟩] 1 =
          some (u, d, s) ∧
      u + d = 100 ∧ 0 ≤ u ∧ u ≤ 100 ∧ 0 ≤ d ∧ d ≤ 100 :=
  ⟨by decide, by decide, c1_up_down_sum_and_bounds _ 1 (by decide) (by decide)⟩

/-- C9: the shared volume-weight scalar multiplies every base weight and
the final score divides by the total weight, so it cancels: whenever the
volume weight is positive, `calculate_probability` returns exactly the
same triple as the simplified scorer with the fixed base weights alone. -/
theorem c9_volume_weight_cancels (df : List IndRow) (lookback : ℕ)
    (h : 0 < volumeWeight (recentOf df lookback)) :
    calculate_probability df lookback = calculate_probability_simple df lookback := by
  unfold calculate_probability calculate_probability_simple
  dsimp only
  cases hlast : (recentOf df lookback).getLast? with
  | none => rfl
  | some last =>
    simp only [Option.map_some']
    rw [finalScore_eq_simple _ _ h]

/-- Witness for C9 at a concrete two-row frame. -/
theorem c9_witness :
    0 < volumeWeight (recentOf
      [⟨100, 1000, none, none, none, none, none, none, none, none, none⟩,
       ⟨101, 2000, none, none, none, none, none, none, none, none, none⟩] 20) ∧
    calculate_probability
      [⟨100, 1000, none, none, none, none, none, none, none, none, none⟩,
       ⟨101, 2000, none, none, none, none, none, none, none, none, none⟩] 20 =
    calculate_probability_simple
      [⟨100, 1000, none, none, none, none, none, none, none, none, none⟩,
       ⟨101, 2000, none, none, none, none, none, none, none, none, none⟩] 20 :=
  ⟨by norm_num [volumeWeight, recentOf, lookbackOf, volClipped],
   c9_volume_weight_cancels _ 20
     (by norm_num [volumeWeight, recentOf, lookbackOf, volClipped])⟩

/-- C10: every sub-score lies in the fixed constant set, the blended score
is a convex combination lying in [20, 80], and the clamp to [0, 100] never
changes the value: `up_probability` equals the unclamped final score. -/
theorem c10_subscores_and_clamp_noop (df : List IndRow) (lookback : ℕ)
    (u d : ℚ) (s : Signals)
    (h : calculate_probability df lookback = some (u, d, s)) :
    ScoreOK s.rsi ∧ ScoreOK s.macd ∧ ScoreOK s.stochastic ∧ ScoreOK s.ma ∧
      ScoreOK s.obv ∧ 20 ≤ u ∧ u ≤ 80 ∧
      ∃ last, (recentOf df lookback).getLast? = some last ∧
        u = finalScore (recentOf df lookback) last := by
  cases hlast : (recentOf df lookback).getLast? with
  | none =>
    simp only [calculate_probability] at h
    rw [hlast] at h
    simp at h
  | some last =>
    simp only [calculate_probability] at h
    rw [hlast, Option.map_some'] at h
    have hrec : recentOf df lookback ≠ [] := by
      intro hnil
      rw [hnil] at hlast
      simp at hlast
    have hvw := volumeWeight_pos _ hrec
    have hfeq := finalScore_eq_simple (recentOf df lookback) last hvw
    obtain ⟨hb1, hb2⟩ := simpleFinalScore_bounds (recentOf df lookback) last
    have hfb1 : 20 ≤ finalScore (recentOf df lookback) last := by rw [hfeq]; exact hb1
    have hfb2 : finalScore (recentOf df lookback) last ≤ 80 := by rw [hfeq]; exact hb2
    have hclamp : max 0 (min 100 (finalScore (recentOf df lookback) last)) =
        finalScore (recentOf df lookback) last := by
      rw [min_eq_right (by linarith), max_eq_right (by linarith)]
    obtain ⟨hu, hd, hs⟩ : u = max 0 (min 100 (finalScore (recentOf df lookback) last)) ∧
        d = 100 - max 0 (min 100 (finalScore (recentOf df lookback) last)) ∧
        s = mkSignals (recentOf df lookback) last := by
      have h2 := h.symm
      simp only [Option.some.injEq, Prod.mk.injEq] at h2
      exact ⟨h2.1, h2.2.1, h2.2.2⟩
    subst hs
    refine ⟨rsiScore_mem _, macdScore_mem _ _ _ _, stochScore_mem _ _, maScore_mem _ _ _,
      obvScore_mem _ _, ?_, ?_, last, rfl, ?_⟩
    · rw [hu, hclamp]; exact hfb1
    · rw [hu, hclamp]; exact hfb2
    · rw [hu, hclamp]

/-- Witness for C10 at a concrete one-row frame. -/
theorem c10_witness :
    ScoreOK (Signals.rsi ⟨50, 50, 50, 50, 50⟩) ∧
    ScoreOK (Signals.macd ⟨50, 50, 50, 50, 50⟩) ∧
    ScoreOK (Signals.stochastic ⟨50, 50, 50, 50, 50⟩) ∧
    ScoreOK (Signals.ma ⟨50, 50, 50, 50, 50⟩) ∧
    ScoreOK (Signals.obv ⟨50, 50, 50, 50, 50⟩) ∧
    (20 : ℚ) ≤ 50 ∧ (50 : ℚ) ≤ 80 ∧
    ∃ last, (recentOf
        [⟨100, 1000, none, none, none, none, none, none, none, none, none⟩] 1).getLast? =
          some last ∧
      (50 : ℚ) = finalScore (recentOf
        [⟨100, 1000, none, none, none, none, none, none, none, none, none⟩] 1) last :=
  c10_subscores_and_clamp_noop
    [⟨100, 1000, none, none, none, none, none, none, none, none, none⟩] 1 50 50
    ⟨50, 50, 50, 50, 50⟩
    (by norm_num [calculate_probability, recentOf, lookbackOf, finalScore, mkSignals,
      volumeWeight, volClipped, rsiScore, macdScore, stochScore, maScore, obvScore,
      ogt, olt])

/-- Counterexample to C4 as stated: a two-row frame in which every
indicator field (including OBV) is undefined at every bar yields
up_probability = 50.75, not 50 — with NaN OBV the NaN-aware comparisons of
the OBV branch are all false, so the branch returns its final fallback 55
rather than 50, and 0.85·50 + 0.15·55 = 50.75. -/
theorem c4_cex_two_bar_frame :
    calculate_probability
      [⟨100, 1000, none, none, none, none, none, none, none, none, none⟩,
       ⟨100, 1000, none, none, none, none, none, none, none, none, none⟩] 20 =
      some (203/4, 197/4, ⟨50, 50, 50, 50, 55⟩) ∧ (203/4 : ℚ) ≠ 50 := by
  constructor
  · norm_num [calculate_probability, recentOf, lookbackOf, finalScore, mkSignals,
      volumeWeight, volClipped, rsiScore, macdScore, stochScore, maScore, obvScore,
      ogt, olt]
  · norm_num

/-- C4 (amended): on a frame whose indicator fields are all undefined, the
scorer returns up_probability = 50 exactly when the trailing window has a
single row; with two or more rows the OBV branch falls into its
final fallback (55) because NaN comparisons are false, and the result is
exactly 50.75 = 203/4. -/
theorem c4_amended_all_undefined (df : List IndRow) (lookback : ℕ)
    (hdf : df ≠ []) (hlb : 1 ≤ lookback)
    (hall : ∀ r ∈ df, r.ma5 = none ∧ r.ma20 = none ∧ r.rsi = none ∧ r.macd = none ∧
      r.macdSig = none ∧ r.macdHist = none ∧ r.stochK = none ∧ r.stochD = none ∧
      r.obv = none) :
    ∃ d s, calculate_probability df lookback =
      some ((if 1 < (recentOf df lookback).length then 203/4 else 50), d, s) := by
  have hrec := recentOf_ne_nil df lookback hdf hlb
  obtain ⟨last, hlast⟩ := exists_getLast _ hrec
  have hlastmem : last ∈ df :=
    List.mem_of_mem_drop (getLast?_mem_of_eq_some _ _ hlast)
  obtain ⟨h5, h20, hrsi, hmacd, hsig, hhist, hk, hd2, hobv⟩ := hall last hlastmem
  have hobvScore : obvScore (recentOf df lookback) last =
      if 1 < (recentOf df lookback).length then 55 else 50 := by
    unfold obvScore
    by_cases hl : 1 < (recentOf df lookback).length
    · rw [if_pos hl, if_pos hl]
      dsimp only
      rw [hobv]
      simp [ogt, olt]
    · rw [if_neg hl, if_neg hl]
  have hsignals : mkSignals (recentOf df lookback) last =
      { rsi := 50, macd := 50, stochastic := 50, ma := 50,
        obv := if 1 < (recentOf df lookback).length then 55 else 50 } := by
    unfold mkSignals
    dsimp only
    rw [hrsi, hmacd, hk, h5, hobvScore]
    rfl
  have hvw := volumeWeight_pos _ hrec
  have hfs : finalScore (recentOf df lookback) last =
      if 1 < (recentOf df lookback).length then 203/4 else 50 := by
    rw [finalScore_eq_simple _ _ hvw]
    unfold simpleFinalScore
    rw [hsignals]
    dsimp only
    by_cases hl : 1 < (recentOf df lookback).length
    · rw [if_pos hl, if_pos hl]; norm_num
    · rw [if_neg hl, if_neg hl]; norm_num
  have hclamp : max 0 (min 100
      (if 1 < (recentOf df lookback).length then (203/4 : ℚ) else 50)) =
      if 1 < (recentOf df lookback).length then (203/4 : ℚ) else 50 := by
    by_cases hl : 1 < (recentOf df lookback).length
    · rw [if_pos hl]; norm_num
    · rw [if_neg hl]; norm_num
  refine ⟨100 - (if 1 < (recentOf df lookback).length then 203/4 else 50),
    mkSignals (recentOf df lookback) last, ?_⟩
  simp only [calculate_probability]
  rw [hlast, Option.map_some']
  rw [hfs, hclamp]

/-- Witness for the amended C4 at a concrete one-row all-undefined frame. -/
theorem c4_amended_witness :
    ∃ d s, calculate_probability
      [⟨100, 1000, none, none, none, none, none, none, none, none, none⟩] 1 =
      some ((if 1 < (recentOf
        [⟨100, 1000, none, none, none, none, none, none, none, none, none⟩] 1).length
        then 203/4 else 50), d, s) :=
  c4_amended_all_undefined _ 1 (by decide) (by decide) (by decide)

set_option maxRecDepth 16384 in
/-- Counterexample to C2 as stated: over a flat 14-bar window (highest
high = lowest low) the %K produced by the stochastic computation is NaN
(the source computes 0/0 with no neutral-50 fallback), not 50. -/
theorem c2_cex_flat_window :
    windowMax (highsOf (List.replicate 14 ⟨10, 10, 10, 10, 1000⟩)) 0 14 =
      windowMin (lowsOf (List.replicate 14 ⟨10, 10, 10, 10, 1000⟩)) 0 14 ∧
    (kCol (List.replicate 14 ⟨10, 10, 10, 10, 1000⟩))[13]? = some none ∧
    (some (none : Option ℚ) : Option (Option ℚ)) ≠ some (some 50) := by
  refine ⟨by decide, ?_, by decide⟩
  unfold kCol
  rw [List.length_replicate, mapRange_getElem? _ 14 13 (by norm_num)]
  decide

/-- C2 (amended): at every bar whose trailing 14-bar highest high equals
its trailing 14-bar lowest low, the %K value is undefined (NaN), and the
scorer's notna fallback then assigns the neutral sub-score 50 for an
undefined %K. -/
theorem c2_amended_zero_range_nan (bars : List PriceBar) (t : ℕ)
    (ht : t < bars.length) (hw : 13 ≤ t)
    (hzero : windowMax (highsOf bars) (t + 1 - 14) 14 =
      windowMin (lowsOf bars) (t + 1 - 14) 14) :
    (kCol bars)[t]? = some none ∧ (∀ d, stochScore none d = 50) := by
  refine ⟨?_, fun d => rfl⟩
  unfold kCol
  rw [mapRange_getElem? _ _ _ ht]
  have hc : ¬ (t + 1 < 14) := by omega
  rw [if_neg hc]
  dsimp only
  rw [if_pos hzero]

set_option maxRecDepth 16384 in
/-- Witness for the amended C2 on a concrete flat 14-bar window. -/
theorem c2_amended_witness :
    (kCol (List.replicate 14 ⟨25, 25, 25, 25, 500⟩))[13]? = some none ∧
    (∀ d, stochScore none d = 50) :=
  c2_amended_zero_range_nan (List.replicate 14 ⟨25, 25, 25, 25, 500⟩) 13
    (by decide) (by decide) (by decide)

/-- C5: on a strictly increasing close series of at least 15 bars, the
14-bar rolling loss average at the last bar is 0, and the RSI at the last
bar is exactly 100 (in the source the float division gives rs = +inf and
100 − 100/(1 + inf) = 100), not NaN/undefined. -/
theorem c5_rsi_100_on_monotone (closes : List ℚ) (hlen : 15 ≤ closes.length)
    (hmono : ∀ i, i + 1 < closes.length → closes.getD i 0 < closes.getD (i + 1) 0) :
    (rollingMean 14 (lossesOf closes))[closes.length - 1]? = some (some 0) ∧
    (rsiCol closes)[closes.length - 1]? = some (some 100) := by
  have hlossLen : (lossesOf closes).length = closes.length := by simp [lossesOf]
  have hgainLen : (gainsOf closes).length = closes.length := by simp [gainsOf]
  have ht : closes.length - 1 < closes.length := by omega
  have hnotlt : ¬ (closes.length - 1 + 1 < 14) := by omega
  have hidx : closes.length - 1 + 1 - 14 = closes.length - 14 := by omega
  have hlossD : ∀ j, 1 ≤ j → j < closes.length → (lossesOf closes).getD j 0 = 0 := by
    intro j h1 hj
    unfold lossesOf
    rw [mapRange_getD _ _ _ _ hj, if_neg (by omega)]
    have hjm : j - 1 + 1 = j := by omega
    have hlt := hmono (j - 1) (by omega)
    rw [hjm] at hlt
    exact max_eq_right (by linarith)
  have hgainD : ∀ j, 1 ≤ j → j < closes.length → 0 < (gainsOf closes).getD j 0 := by
    intro j h1 hj
    unfold gainsOf
    rw [mapRange_getD _ _ _ _ hj, if_neg (by omega)]
    have hjm : j - 1 + 1 = j := by omega
    have hlt := hmono (j - 1) (by omega)
    rw [hjm] at hlt
    exact lt_max_iff.mpr (Or.inl (by linarith))
  have hwinloss : windowSum (lossesOf closes) (closes.length - 14) 14 = 0 := by
    unfold windowSum
    apply List.sum_eq_zero
    intro x hx
    obtain ⟨i, hi, rfl⟩ := List.mem_map.mp hx
    rw [List.mem_range] at hi
    exact hlossD _ (by omega) (by omega)
  have hwingain : 0 < windowSum (gainsOf closes) (closes.length - 14) 14 := by
    unfold windowSum
    apply List.sum_pos
    · intro x hx
      obtain ⟨i, hi, rfl⟩ := List.mem_map.mp hx
      rw [List.mem_range] at hi
      exact hgainD _ (by omega) (by omega)
    · simp
  constructor
  · unfold rollingMean
    rw [mapRange_getElem? _ _ _ (by rw [hlossLen]; omega)]
    rw [if_neg hnotlt, hidx, hwinloss]
    norm_num
  · unfold rsiCol
    rw [mapRange_getElem? _ _ _ ht]
    have hg : (rollingMean 14 (gainsOf closes)).getD (closes.length - 1) none =
        some (windowSum (gainsOf closes) (closes.length - 14) 14 / 14) := by
      unfold rollingMean
      rw [List.getD_eq_getElem?_getD,
        mapRange_getElem? _ _ _ (by rw [hgainLen]; omega)]
      rw [if_neg hnotlt, hidx]
      rfl
    have hl : (rollingMean 14 (lossesOf closes)).getD (closes.length - 1) none =
        some (0 : ℚ) := by
      unfold rollingMean
      rw [List.getD_eq_getElem?_getD,
        mapRange_getElem? _ _ _ (by rw [hlossLen]; omega)]
      rw [if_neg hnotlt, hidx, hwinloss]
      norm_num
    rw [hg, hl]
    have hgne : windowSum (gainsOf closes) (closes.length - 14) 14 / 14 ≠ 0 :=
      ne_of_gt (div_pos hwingain (by norm_num))
    dsimp only
    unfold rsiVal
    rw [if_pos rfl, if_neg hgne]

/-- Witness for C5 on the concrete strictly increasing series 1..15. -/
theorem c5_witness :
    (rollingMean 14 (lossesOf
      [1, 2, 3, 4, 5, 6, 7, 8, 9, 10, 11, 12, 13, 14, 15]))[
        ([1, 2, 3, 4, 5, 6, 7, 8, 9, 10, 11, 12, 13, 14, 15] : List ℚ).length - 1]? =
      some (some 0) ∧
    (rsiCol [1, 2, 3, 4, 5, 6, 7, 8, 9, 10, 11, 12, 13, 14, 15])[
        ([1, 2, 3, 4, 5, 6, 7, 8, 9, 10, 11, 12, 13, 14, 15] : List ℚ).length - 1]? =
      some (some 100) :=
  c5_rsi_100_on_monotone [1, 2, 3, 4, 5, 6, 7, 8, 9, 10, 11, 12, 13, 14, 15]
    (by decide)
    (by
      intro i hi
      have hi2 : i < 14 := by
        simp only [List.length_cons, List.length_nil] at hi
        omega
      interval_cases i <;>
        norm_num [List.getD_cons_zero, List.getD_cons_succ])

/-- C6: the EMAs used inside the MACD computation satisfy the recurrence
EMA[0] = price[0] and EMA[t] = α·price[t] + (1 − α)·EMA[t−1] with
α = 2/(span + 1); in particular for the series [10,12,14,16,18] with
span 3 the EMA sequence is exactly [10, 11, 12.5, 14.25, 16.125] (exact
rational equality, which subsumes the 1e-6 float tolerance). -/
theorem c6_ema_recurrence :
    (∀ (xs : List ℚ) (span : ℕ),
      (0 < xs.length → (ewmMean span xs).getD 0 0 = xs.getD 0 0) ∧
      (∀ t, t + 1 < xs.length →
        (ewmMean span xs).getD (t + 1) 0 =
          2 / ((span : ℚ) + 1) * xs.getD (t + 1) 0 +
          (1 - 2 / ((span : ℚ) + 1)) * (ewmMean span xs).getD t 0)) ∧
    ewmMean 3 [10, 12, 14, 16, 18] = [10, 11, 25/2, 57/4, 129/8] := by
  constructor
  · intro xs span
    cases xs with
    | nil => exact ⟨by intro h; simp at h, by intro t ht; simp at ht⟩
    | cons x rest =>
      constructor
      · intro h
        rfl
      · intro t ht
        have htr : t < rest.length := by simpa using ht
        show (x :: emaGo (2 / ((span : ℚ) + 1)) x rest).getD (t + 1) 0 = _
        rw [List.getD_cons_succ]
        rw [emaGo_getD _ _ _ _ htr]
        cases t with
        | zero => simp [ewmMean]
        | succ r =>
          simp only [List.getD_cons_succ]
          rfl
  · norm_num [ewmMean, emaGo]

/-- Witness for the recurrence part of C6 at span 4 and series [5, 9]. -/
theorem c6_witness :
    (ewmMean 4 [5, 9]).getD 1 0 =
      2 / (((4 : ℕ) : ℚ) + 1) * ([5, 9] : List ℚ).getD 1 0 +
      (1 - 2 / (((4 : ℕ) : ℚ) + 1)) * (ewmMean 4 [5, 9]).getD 0 0 :=
  (c6_ema_recurrence.1 [5, 9] 4).2 0 (by decide)

/-- C7: the OBV column is the cumulative sum of
sign(close[t] − close[t−1])·volume[t] with the first bar contributing 0;
in particular closes [100,102,101,105] with volumes 1000 each produce the
OBV sequence [0, 1000, 0, 1000]. -/
theorem c7_obv_cumulative (bars : List PriceBar) (_hne : bars ≠ []) :
    (obvCol bars).length = bars.length ∧
    (∀ t, t < bars.length → (obvCol bars).getD t 0 =
      ((List.range (t + 1)).map fun j =>
        if j = 0 then 0
        else sign ((closesOf bars).getD j 0 - (closesOf bars).getD (j - 1) 0) *
          (volsOf bars).getD j 0).sum) ∧
    obvCol [⟨100, 100, 100, 100, 1000⟩, ⟨102, 102, 102, 102, 1000⟩,
            ⟨101, 101, 101, 101, 1000⟩, ⟨105, 105, 105, 105, 1000⟩] =
      [0, 1000, 0, 1000] := by
  have hterms : (obvTerms bars).length = bars.length := by simp [obvTerms]
  refine ⟨by simp [obvCol, cumsum, hterms], ?_, ?_⟩
  · intro t ht
    unfold obvCol
    rw [cumsum_getD _ _ (by rw [hterms]; omega)]
    unfold obvTerms
    rw [← List.map_take, List.take_range, min_eq_left (by omega)]
  · norm_num [obvCol, obvTerms, cumsum, closesOf, volsOf, sign, List.range_succ,
      List.getD_cons_zero, List.getD_cons_succ]

/-- Witness for C7 at the concrete four-bar example. -/
theorem c7_witness :
    (obvCol [⟨100, 100, 100, 100, 1000⟩, ⟨102, 102, 102, 102, 1000⟩,
             ⟨101, 101, 101, 101, 1000⟩, ⟨105, 105, 105, 105, 1000⟩]).length =
      ([⟨100, 100, 100, 100, 1000⟩, ⟨102, 102, 102, 102, 1000⟩,
        ⟨101, 101, 101, 101, 1000⟩, ⟨105, 105, 105, 105, 1000⟩] : List PriceBar).length ∧
    (∀ t, t < ([⟨100, 100, 100, 100, 1000⟩, ⟨102, 102, 102, 102, 1000⟩,
        ⟨101, 101, 101, 101, 1000⟩, ⟨105, 105, 105, 105, 1000⟩] : List PriceBar).length →
      (obvCol [⟨100, 100, 100, 100, 1000⟩, ⟨102, 102, 102, 102, 1000⟩,
               ⟨101, 101, 101, 101, 1000⟩, ⟨105, 105, 105, 105, 1000⟩]).getD t 0 =
      ((List.range (t + 1)).map fun j =>
        if j = 0 then 0
        else sign ((closesOf [⟨100, 100, 100, 100, 1000⟩, ⟨102, 102, 102, 102, 1000⟩,
            ⟨101, 101, 101, 101, 1000⟩, ⟨105, 105, 105, 105, 1000⟩]).getD j 0 -
          (closesOf [⟨100, 100, 100, 100, 1000⟩, ⟨102, 102, 102, 102, 1000⟩,
            ⟨101, 101, 101, 101, 1000⟩, ⟨105, 105, 105, 105, 1000⟩]).getD (j - 1) 0) *
          (volsOf [⟨100, 100, 100, 100, 1000⟩, ⟨102, 102, 102, 102, 1000⟩,
            ⟨101, 101, 101, 101, 1000⟩, ⟨105, 105, 105, 105, 1000⟩]).getD j 0).sum) ∧
    obvCol [⟨100, 100, 100, 100, 1000⟩, ⟨102, 102, 102, 102, 1000⟩,
            ⟨101, 101, 101, 101, 1000⟩, ⟨105, 105, 105, 105, 1000⟩] =
      [0, 1000, 0, 1000] :=
  c7_obv_cumulative _ (by decide)

/-- Counterexample to C3 as stated: on a one-bar input the MACD line,
signal line, histogram and OBV columns are all defined (equal to 0), not
undefined — `ewm` needs no minimum window and OBV is `fillna(0).cumsum()`. -/
theorem c3_cex_one_bar_macd_obv_defined :
    (mkFrame [⟨100, 100, 100, 100, 1000⟩] (fun q => q)).macd = [some 0] ∧
    (mkFrame [⟨100, 100, 100, 100, 1000⟩] (fun q => q)).macdSig = [some 0] ∧
    (mkFrame [⟨100, 100, 100, 100, 1000⟩] (fun q => q)).macdHist = [some 0] ∧
    (mkFrame [⟨100, 100, 100, 100, 1000⟩] (fun q => q)).obv = [some 0] ∧
    (some (0 : ℚ) : Option ℚ) ≠ none := by
  refine ⟨?_, ?_, ?_, ?_, by decide⟩ <;>
    norm_num [mkFrame, macdLine, macdSignalLine, macdHistLine, ewmMean, emaGo,
      obvCol, obvTerms, cumsum, closesOf, volsOf, sign, List.range_succ]

/-- C3 (amended): on an input with fewer than 2 bars the engine does not
fail (all columns are total functions) and the moving averages, RSI,
stochastic and Bollinger columns are undefined at every bar, but the MACD
line/signal/histogram and OBV columns are defined and equal to 0 at every
bar. -/
theorem c3_amended_short_series (bars : List PriceBar) (sq : ℚ → ℚ)
    (h : bars.length < 2) :
    (∀ x ∈ (mkFrame bars sq).ma5, x = none) ∧
    (∀ x ∈ (mkFrame bars sq).ma20, x = none) ∧
    (∀ x ∈ (mkFrame bars sq).ma60, x = none) ∧
    (∀ x ∈ (mkFrame bars sq).ma120, x = none) ∧
    (∀ x ∈ (mkFrame bars sq).rsi, x = none) ∧
    (∀ x ∈ (mkFrame bars sq).stochK, x = none) ∧
    (∀ x ∈ (mkFrame bars sq).stochD, x = none) ∧
    (∀ x ∈ (mkFrame bars sq).bbMiddle, x = none) ∧
    (∀ x ∈ (mkFrame bars sq).bbStd, x = none) ∧
    (∀ x ∈ (mkFrame bars sq).bbUpper, x = none) ∧
    (∀ x ∈ (mkFrame bars sq).bbLower, x = none) ∧
    (mkFrame bars sq).macd = List.replicate bars.length (some 0) ∧
    (mkFrame bars sq).macdSig = List.replicate bars.length (some 0) ∧
    (mkFrame bars sq).macdHist = List.replicate bars.length (some 0) ∧
    (mkFrame bars sq).obv = List.replicate bars.length (some 0) := by
  match bars, h with
  | [], _ =>
    refine ⟨?_, ?_, ?_, ?_, ?_, ?_, ?_, ?_, ?_, ?_, ?_, ?_, ?_, ?_, ?_⟩ <;>
      simp [mkFrame, rollingMean, rollingStd, rollingMeanO, rsiCol, kCol, dCol,
        obvCol, obvTerms, cumsum, macdLine, macdSignalLine, macdHistLine, ewmMean,
        closesOf]
  | [b], _ =>
    have hma5 : (mkFrame [b] sq).ma5 = [none] := rfl
    have hma20 : (mkFrame [b] sq).ma20 = [none] := rfl
    have hma60 : (mkFrame [b] sq).ma60 = [none] := rfl
    have hma120 : (mkFrame [b] sq).ma120 = [none] := rfl
    have hrsi : (mkFrame [b] sq).rsi = [none] := rfl
    have hk : (mkFrame [b] sq).stochK = [none] := rfl
    have hd : (mkFrame [b] sq).stochD = [none] := rfl
    have hbm : (mkFrame [b] sq).bbMiddle = [none] := rfl
    have hbs : (mkFrame [b] sq).bbStd = [none] := rfl
    have hbu : (mkFrame [b] sq).bbUpper = [none] := rfl
    have hbl : (mkFrame [b] sq).bbLower = [none] := rfl
    have hmacd : (mkFrame [b] sq).macd = [some 0] := by
      show (macdLine (closesOf [b])).map some = [some 0]
      norm_num [macdLine, ewmMean, emaGo, closesOf]
    have hsig : (mkFrame [b] sq).macdSig = [some 0] := by
      show (macdSignalLine (closesOf [b])).map some = [some 0]
      norm_num [macdSignalLine, macdLine, ewmMean, emaGo, closesOf]
    have hhist : (mkFrame [b] sq).macdHist = [some 0] := by
      show (macdHistLine (closesOf [b])).map some = [some 0]
      norm_num [macdHistLine, macdSignalLine, macdLine, ewmMean, emaGo, closesOf]
    have hobv : (mkFrame [b] sq).obv = [some 0] := by
      show (obvCol [b]).map some = [some 0]
      norm_num [obvCol, obvTerms, cumsum, List.range_succ]
    refine ⟨?_, ?_, ?_, ?_, ?_, ?_, ?_, ?_, ?_, ?_, ?_, ?_, ?_, ?_, ?_⟩
    · rw [hma5]; simp
    · rw [hma20]; simp
    · rw [hma60]; simp
    · rw [hma120]; simp
    · rw [hrsi]; simp
    · rw [hk]; simp
    · rw [hd]; simp
    · rw [hbm]; simp
    · rw [hbs]; simp
    · rw [hbu]; simp
    · rw [hbl]; simp
    · rw [hmacd]; simp
    · rw [hsig]; simp
    · rw [hhist]; simp
    · rw [hobv]; simp

/-- Witness for the amended C3 at a concrete one-bar input. -/
theorem c3_amended_witness :
    (∀ x ∈ (mkFrame [⟨7, 9, 5, 8, 300⟩] (fun q => q)).ma5, x = none) ∧
    (∀ x ∈ (mkFrame [⟨7, 9, 5, 8, 300⟩] (fun q => q)).ma20, x = none) ∧
    (∀ x ∈ (mkFrame [⟨7, 9, 5, 8, 300⟩] (fun q => q)).ma60, x = none) ∧
    (∀ x ∈ (mkFrame [⟨7, 9, 5, 8, 300⟩] (fun q => q)).ma120, x = none) ∧
    (∀ x ∈ (mkFrame [⟨7, 9, 5, 8, 300⟩] (fun q => q)).rsi, x = none) ∧
    (∀ x ∈ (mkFrame [⟨7, 9, 5, 8, 300⟩] (fun q => q)).stochK, x = none) ∧
    (∀ x ∈ (mkFrame [⟨7, 9, 5, 8, 300⟩] (fun q => q)).stochD, x = none) ∧
    (∀ x ∈ (mkFrame [⟨7, 9, 5, 8, 300⟩] (fun q => q)).bbMiddle, x = none) ∧
    (∀ x ∈ (mkFrame [⟨7, 9, 5, 8, 300⟩] (fun q => q)).bbStd, x = none) ∧
    (∀ x ∈ (mkFrame [⟨7, 9, 5, 8, 300⟩] (fun q => q)).bbUpper, x = none) ∧
    (∀ x ∈ (mkFrame [⟨7, 9, 5, 8, 300⟩] (fun q => q)).bbLower, x = none) ∧
    (mkFrame [⟨7, 9, 5, 8, 300⟩] (fun q => q)).macd =
      List.replicate ([⟨7, 9, 5, 8, 300⟩] : List PriceBar).length (some 0) ∧
    (mkFrame [⟨7, 9, 5, 8, 300⟩] (fun q => q)).macdSig =
      List.replicate ([⟨7, 9, 5, 8, 300⟩] : List PriceBar).length (some 0) ∧
    (mkFrame [⟨7, 9, 5, 8, 300⟩] (fun q => q)).macdHist =
      List.replicate ([⟨7, 9, 5, 8, 300⟩] : List PriceBar).length (some 0) ∧
    (mkFrame [⟨7, 9, 5, 8, 300⟩] (fun q => q)).obv =
      List.replicate ([⟨7, 9, 5, 8, 300⟩] : List PriceBar).length (some 0) :=
  c3_amended_short_series [⟨7, 9, 5, 8, 300⟩] (fun q => q) (by decide)

/-- The no-look-ahead property at index `t`: two inputs that agree on
their first `t + 1` bars get identical derived values at index `t` in
every column of the Indicator Engine. -/
def NoLookaheadAt (bars1 bars2 : List PriceBar) (sq : ℚ → ℚ) (t : ℕ) : Prop :=
  (mkFrame bars1 sq).ma5[t]? = (mkFrame bars2 sq).ma5[t]? ∧
  (mkFrame bars1 sq).ma20[t]? = (mkFrame bars2 sq).ma20[t]? ∧
  (mkFrame bars1 sq).ma60[t]? = (mkFrame bars2 sq).ma60[t]? ∧
  (mkFrame bars1 sq).ma120[t]? = (mkFrame bars2 sq).ma120[t]? ∧
  (mkFrame bars1 sq).rsi[t]? = (mkFrame bars2 sq).rsi[t]? ∧
  (mkFrame bars1 sq).macd[t]? = (mkFrame bars2 sq).macd[t]? ∧
  (mkFrame bars1 sq).macdSig[t]? = (mkFrame bars2 sq).macdSig[t]? ∧
  (mkFrame bars1 sq).macdHist[t]? = (mkFrame bars2 sq).macdHist[t]? ∧
  (mkFrame bars1 sq).stochK[t]? = (mkFrame bars2 sq).stochK[t]? ∧
  (mkFrame bars1 sq).stochD[t]? = (mkFrame bars2 sq).stochD[t]? ∧
  (mkFrame bars1 sq).obv[t]? = (mkFrame bars2 sq).obv[t]? ∧
  (mkFrame bars1 sq).bbMiddle[t]? = (mkFrame bars2 sq).bbMiddle[t]? ∧
  (mkFrame bars1 sq).bbStd[t]? = (mkFrame bars2 sq).bbStd[t]? ∧
  (mkFrame bars1 sq).bbUpper[t]? = (mkFrame bars2 sq).bbUpper[t]? ∧
  (mkFrame bars1 sq).bbLower[t]? = (mkFrame bars2 sq).bbLower[t]?

theorem prefixCol_getElem?_eq {β : Type} (g : List PriceBar → List β)
    (hg : ∀ bs n, g (bs.take n) = (g bs).take n)
    (bars1 bars2 : List PriceBar) (t : ℕ)
    (hpre : bars1.take (t + 1) = bars2.take (t + 1)) :
    (g bars1)[t]? = (g bars2)[t]? := by
  have h1 : (g bars1)[t]? = ((g bars1).take (t + 1))[t]? :=
    (List.getElem?_take_of_lt (Nat.lt_succ_self t)).symm
  rw [h1, ← hg, hpre, hg, List.getElem?_take_of_lt (Nat.lt_succ_self t)]

/-- C8: no look-ahead.  For any two inputs agreeing on their first `t + 1`
bars, every derived column (moving averages, RSI, MACD line/signal/
histogram, stochastic %K/%D, OBV, Bollinger bands) agrees at index `t`:
each derived value depends only on bars at or before its own index. -/
theorem c8_no_lookahead (bars1 bars2 : List PriceBar) (sq : ℚ → ℚ) (t : ℕ)
    (hpre : bars1.take (t + 1) = bars2.take (t + 1)) :
    NoLookaheadAt bars1 bars2 sq t := by
  unfold NoLookaheadAt
  refine ⟨?_, ?_, ?_, ?_, ?_, ?_, ?_, ?_, ?_, ?_, ?_, ?_, ?_, ?_, ?_⟩
  · exact prefixCol_getElem?_eq (fun bs => rollingMean 5 (closesOf bs))
      (fun bs n => by dsimp only; rw [closesOf_take, rollingMean_take]) bars1 bars2 t hpre
  · exact prefixCol_getElem?_eq (fun bs => rollingMean 20 (closesOf bs))
      (fun bs n => by dsimp only; rw [closesOf_take, rollingMean_take]) bars1 bars2 t hpre
  · exact prefixCol_getElem?_eq (fun bs => rollingMean 60 (closesOf bs))
      (fun bs n => by dsimp only; rw [closesOf_take, rollingMean_take]) bars1 bars2 t hpre
  · exact prefixCol_getElem?_eq (fun bs => rollingMean 120 (closesOf bs))
      (fun bs n => by dsimp only; rw [closesOf_take, rollingMean_take]) bars1 bars2 t hpre
  · exact prefixCol_getElem?_eq (fun bs => rsiCol (closesOf bs))
      (fun bs n => by dsimp only; rw [closesOf_take, rsiCol_take]) bars1 bars2 t hpre
  · exact prefixCol_getElem?_eq (fun bs => (macdLine (closesOf bs)).map some)
      (fun bs n => by dsimp only; rw [closesOf_take, macdLine_take, List.map_take])
      bars1 bars2 t hpre
  · exact prefixCol_getElem?_eq (fun bs => (macdSignalLine (closesOf bs)).map some)
      (fun bs n => by dsimp only; rw [closesOf_take, macdSignalLine_take, List.map_take])
      bars1 bars2 t hpre
  · exact prefixCol_getElem?_eq (fun bs => (macdHistLine (closesOf bs)).map some)
      (fun bs n => by dsimp only; rw [closesOf_take, macdHistLine_take, List.map_take])
      bars1 bars2 t hpre
  · exact prefixCol_getElem?_eq (fun bs => kCol bs)
      (fun bs n => by dsimp only; rw [kCol_take]) bars1 bars2 t hpre
  · exact prefixCol_getElem?_eq (fun bs => dCol bs)
      (fun bs n => by dsimp only; rw [dCol_take]) bars1 bars2 t hpre
  · exact prefixCol_getElem?_eq (fun bs => (obvCol bs).map some)
      (fun bs n => by dsimp only; rw [obvCol_take, List.map_take]) bars1 bars2 t hpre
  · exact prefixCol_getElem?_eq (fun bs => rollingMean 20 (closesOf bs))
      (fun bs n => by dsimp only; rw [closesOf_take, rollingMean_take]) bars1 bars2 t hpre
  · exact prefixCol_getElem?_eq (fun bs => rollingStd 20 sq (closesOf bs))
      (fun bs n => by dsimp only; rw [closesOf_take, rollingStd_take]) bars1 bars2 t hpre
  · exact prefixCol_getElem?_eq
      (fun bs => List.zipWith (fun m s => Option.map₂ (fun a b => a + b * 2) m s)
        (rollingMean 20 (closesOf bs)) (rollingStd 20 sq (closesOf bs)))
      (fun bs n => by
        dsimp only
        rw [closesOf_take, rollingMean_take, rollingStd_take, ← List.take_zipWith])
      bars1 bars2 t hpre
  · exact prefixCol_getElem?_eq
      (fun bs => List.zipWith (fun m s => Option.map₂ (fun a b => a - b * 2) m s)
        (rollingMean 20 (closesOf bs)) (rollingStd 20 sq (closesOf bs)))
      (fun bs n => by
        dsimp only
        rw [closesOf_take, rollingMean_take, rollingStd_take, ← List.take_zipWith])
      bars1 bars2 t hpre

/-- Witness for C8: the two-bar and three-bar inputs below share their
first two bars, so all columns agree at index 1. -/
theorem c8_witness :
    NoLookaheadAt
      [⟨1, 3, 0, 2, 100⟩, ⟨2, 4, 1, 3, 200⟩]
      [⟨1, 3, 0, 2, 100⟩, ⟨2, 4, 1, 3, 200⟩, ⟨9, 9, 9, 9, 900⟩]
      (fun q => q) 1 :=
  c8_no_lookahead _ _ (fun q => q) 1 (by decide)
